import Mathlib

/-!
# TaskManager — shallow embedding and verification

A shallow embedding of the `TaskManager` Solidity contract
(`contracts/TaskManager.sol`): a per-user task store with ownership checks,
an administrator (the `Ownable` owner), a paused flag and a per-user task
limit.  Addresses are modelled as `Nat` with `0` standing for the zero
address (`address(0)`); `uint256` values are modelled as `Nat` (Solidity
0.8 reverts on overflow, so no wrap-around behaviour is observable).
Solidity `require` failures / reverts are modelled by `Except`: an `error`
result means the transaction reverted and no state change took place.
-/

namespace TaskManager

/-- Account addresses; `0` models `address(0)`. -/
abbrev Address := Nat

/-- `enum Priority { Low, Medium, High }`. -/
inductive Priority where
  | Low
  | Medium
  | High
deriving DecidableEq, Repr

/-- `Priority(priority)` for a `uint8` already checked to be `≤ 2`. -/
def Priority.fromNat (n : Nat) : Priority :=
  if n = 0 then .Low else if n = 1 then .Medium else .High

/-- The `Task` struct. -/
structure Task where
  id : Nat
  title : String
  description : String
  completed : Bool
  owner : Address
  priority : Priority
  dueDate : Nat
  createdAt : Nat
deriving DecidableEq, Repr

/-- The zero-initialized `Task`, which a deleted or never-written mapping
slot reads as (`Priority` zero value is `Low`). -/
def Task.empty : Task :=
  { id := 0, title := "", description := "", completed := false,
    owner := 0, priority := .Low, dueDate := 0, createdAt := 0 }

/-- Point update of a total mapping, modelling `m[k] = v`. -/
def updMap {β : Type} (f : Nat → β) (k : Nat) (v : β) : Nat → β :=
  fun x => if x = k then v else f x

/-- The contract storage: the id counter, the two mappings (total, reading
deleted slots as defaults, per ledger semantics), the admin settings, and
the `Ownable` owner (the administrator). -/
structure State where
  taskIdCounter : Nat
  tasks : Nat → Task
  userTasks : Address → List Nat
  paused : Bool
  maxTasksPerUser : Nat
  admin : Address

/-- Storage right after the constructor ran for deployer `admin`:
`_paused = false`, `_maxTasksPerUser = 100`, everything else zero. -/
def initialState (admin : Address) : State :=
  { taskIdCounter := 0, tasks := fun _ => Task.empty,
    userTasks := fun _ => [], paused := false,
    maxTasksPerUser := 100, admin := admin }

/-- The distinct `require` failures / reverts of the contract, by message:
`Paused` = "Contract is paused", `NotOwnerEdit` = "Only the task owner can
edit this task", `NotOwnerModify` = "Only the task owner can modify this
task", `NotOwnerDelete` = "Only the task owner can delete this task",
`InvalidPriority` = "Invalid priority level", `LimitReached` = "Maximum
number of tasks reached", `NotAdmin` = "Ownable: caller is not the owner".
The three `NotOwner*` messages are the spec's AuthorizationError for
record owners; `NotAdmin` is its AuthorizationError for admin calls. -/
inductive Err where
  | Paused
  | NotOwnerEdit
  | NotOwnerModify
  | NotOwnerDelete
  | InvalidPriority
  | LimitReached
  | NotAdmin
deriving DecidableEq, Repr

/-- The contract's events. -/
inductive Event where
  | TaskAdded (taskId : Nat) (owner : Address) (title : String)
      (priority : Priority) (dueDate : Nat)
  | TaskUpdated (taskId : Nat) (newTitle newDescription : String)
      (priority : Priority) (dueDate : Nat)
  | TaskCompleted (taskId : Nat) (completed : Bool)
  | TaskDeleted (taskId : Nat)
  | ContractPaused (paused : Bool)
  | MaxTasksPerUserChanged (maxTasks : Nat)
deriving DecidableEq, Repr

/-- The swap-with-last-and-pop removal loop used by `deleteTask` and
`adminDeleteTask`: find the first index holding `x`, overwrite it with the
last element, drop the last element; if `x` is absent the list is
unchanged.  `firstIdx` is the loop's search. -/
def firstIdx (l : List Nat) (x : Nat) : Option Nat :=
  match l with
  | [] => none
  | y :: ys => if y = x then some 0 else (firstIdx ys x).map (· + 1)

/-- The removal itself (the body of the `for` loop in the contract). -/
def swapPopRemove (l : List Nat) (x : Nat) : List Nat :=
  match firstIdx l x with
  | none => l
  | some i => (l.set i (l.getD (l.length - 1) 0)).dropLast

/-- The `Task` record that `addTask` stores: the current counter value as
id, the caller as owner, `block.timestamp` as creation time. -/
def newTask (s : State) (caller : Address) (title description : String)
    (priority : Nat) (dueDate now : Nat) : Task :=
  { id := s.taskIdCounter, title := title, description := description,
    completed := false, owner := caller,
    priority := Priority.fromNat priority, dueDate := dueDate,
    createdAt := now }

/-- `addTask(title, description, priority, dueDate)` called by `caller`
in a block with timestamp `now`.  Returns the new state, the emitted
events, and the new task id. -/
def addTask (s : State) (caller : Address) (title description : String)
    (priority : Nat) (dueDate now : Nat) :
    Except Err (State × List Event × Nat) :=
  if s.paused then .error .Paused
  else if priority ≤ 2 then
    if (s.userTasks caller).length < s.maxTasksPerUser then
      .ok ({ s with
              taskIdCounter := s.taskIdCounter + 1,
              tasks := updMap s.tasks s.taskIdCounter
                (newTask s caller title description priority dueDate now),
              userTasks := updMap s.userTasks caller
                (s.userTasks caller ++ [s.taskIdCounter]) },
           [Event.TaskAdded s.taskIdCounter caller title
              (Priority.fromNat priority) dueDate],
           s.taskIdCounter)
    else .error .LimitReached
  else .error .InvalidPriority

/-- The two-argument `addTask(title, description)` overload: defaults to
`Priority.Medium` and no due date. -/
def addTaskDefault (s : State) (caller : Address)
    (title description : String) (now : Nat) :
    Except Err (State × List Event × Nat) :=
  addTask s caller title description 1 0 now

/-- `editTask(taskId, newTitle, newDescription, priority, dueDate)`. -/
def editTask (s : State) (caller : Address) (taskId : Nat)
    (newTitle newDescription : String) (priority dueDate : Nat) :
    Except Err (State × List Event) :=
  if s.paused then .error .Paused
  else if (s.tasks taskId).owner = caller then
    if priority ≤ 2 then
      .ok ({ s with
              tasks := updMap s.tasks taskId
                { s.tasks taskId with
                    title := newTitle, description := newDescription,
                    priority := Priority.fromNat priority,
                    dueDate := dueDate } },
           [Event.TaskUpdated taskId newTitle newDescription
              (Priority.fromNat priority) dueDate])
    else .error .InvalidPriority
  else .error .NotOwnerEdit

/-- The three-argument `editTask(taskId, newTitle, newDescription)`
overload: priority and due date are left unchanged. -/
def editTaskSimple (s : State) (caller : Address) (taskId : Nat)
    (newTitle newDescription : String) : Except Err (State × List Event) :=
  if s.paused then .error .Paused
  else if (s.tasks taskId).owner = caller then
    .ok ({ s with
            tasks := updMap s.tasks taskId
              { s.tasks taskId with
                  title := newTitle, description := newDescription } },
         [Event.TaskUpdated taskId newTitle newDescription
            (s.tasks taskId).priority (s.tasks taskId).dueDate])
  else .error .NotOwnerEdit

/-- `setTaskCompletion(taskId, status)`: the event (and the write) happen
only when the flag actually changes. -/
def setTaskCompletion (s : State) (caller : Address) (taskId : Nat)
    (status : Bool) : Except Err (State × List Event) :=
  if s.paused then .error .Paused
  else if (s.tasks taskId).owner = caller then
    if (s.tasks taskId).completed ≠ status then
      .ok ({ s with
              tasks := updMap s.tasks taskId
                { s.tasks taskId with completed := status } },
           [Event.TaskCompleted taskId status])
    else .ok (s, [])
  else .error .NotOwnerModify

/-- `completeTask(taskId)`. -/
def completeTask (s : State) (caller : Address) (taskId : Nat) :
    Except Err (State × List Event) :=
  setTaskCompletion s caller taskId true

/-- `uncompleteTask(taskId)`. -/
def uncompleteTask (s : State) (caller : Address) (taskId : Nat) :
    Except Err (State × List Event) :=
  setTaskCompletion s caller taskId false

/-- `deleteTask(taskId)`: owner-only; removes the id from the caller's
index by swap-and-pop, then zeroes the record. -/
def deleteTask (s : State) (caller : Address) (taskId : Nat) :
    Except Err (State × List Event) :=
  if s.paused then .error .Paused
  else if (s.tasks taskId).owner = caller then
    .ok ({ s with
            userTasks := updMap s.userTasks caller
              (swapPopRemove (s.userTasks caller) taskId),
            tasks := updMap s.tasks taskId Task.empty },
         [Event.TaskDeleted taskId])
  else .error .NotOwnerDelete

/-- `adminDeleteTask(taskId)`: admin-only (`onlyOwner`), *not* gated by
the paused flag; removal is keyed off the stored record's owner. -/
def adminDeleteTask (s : State) (caller : Address) (taskId : Nat) :
    Except Err (State × List Event) :=
  if caller = s.admin then
    .ok ({ s with
            userTasks := updMap s.userTasks ((s.tasks taskId).owner)
              (swapPopRemove (s.userTasks ((s.tasks taskId).owner)) taskId),
            tasks := updMap s.tasks taskId Task.empty },
         [Event.TaskDeleted taskId])
  else .error .NotAdmin

/-- `setPaused(paused)`: admin-only; writes and emits only on change. -/
def setPaused (s : State) (caller : Address) (paused : Bool) :
    Except Err (State × List Event) :=
  if caller = s.admin then
    if s.paused ≠ paused then
      .ok ({ s with paused := paused }, [Event.ContractPaused paused])
    else .ok (s, [])
  else .error .NotAdmin

/-- `setMaxTasksPerUser(maxTasks)`: admin-only; writes and emits only on
change. -/
def setMaxTasksPerUser (s : State) (caller : Address) (maxTasks : Nat) :
    Except Err (State × List Event) :=
  if caller = s.admin then
    if s.maxTasksPerUser ≠ maxTasks then
      .ok ({ s with maxTasksPerUser := maxTasks },
           [Event.MaxTasksPerUserChanged maxTasks])
    else .ok (s, [])
  else .error .NotAdmin

/-- `getTask(taskId)`: no ownership check; deleted ids read as
`Task.empty`. -/
def getTask (s : State) (taskId : Nat) : Task :=
  s.tasks taskId

/-- `getTaskCount()` for `caller`. -/
def getTaskCount (s : State) (caller : Address) : Nat :=
  (s.userTasks caller).length

/-- `getTotalTaskCount()` (admin-only view). -/
def getTotalTaskCount (s : State) (caller : Address) : Except Err Nat :=
  if caller = s.admin then .ok s.taskIdCounter else .error .NotAdmin

/-- `fetchAllTasks()` for `caller`: the caller's tasks in index order. -/
def fetchAllTasks (s : State) (caller : Address) : List Task :=
  (s.userTasks caller).map s.tasks

/-- `fetchTasksByStatus(completed)` for `caller`.  The contract's
count-then-fill two-pass materializes, in index order, exactly the tasks
passing the test, i.e. a filter. -/
def fetchTasksByStatus (s : State) (caller : Address) (completed : Bool) :
    List Task :=
  ((s.userTasks caller).map s.tasks).filter (fun t => t.completed == completed)

/-- `fetchTasksByPriority(priority)` for `caller`. -/
def fetchTasksByPriority (s : State) (caller : Address) (priority : Nat) :
    Except Err (List Task) :=
  if priority ≤ 2 then
    .ok (((s.userTasks caller).map s.tasks).filter
      (fun t => t.priority == Priority.fromNat priority))
  else .error .InvalidPriority

/-- `fetchTasksDueSoon()` for `caller` at block time `now`: tasks with a
nonzero due date at most `1 days` (86400 s) ahead that are not
completed. -/
def fetchTasksDueSoon (s : State) (caller : Address) (now : Nat) :
    List Task :=
  let tomorrow := now + 86400
  ((s.userTasks caller).map s.tasks).filter
    (fun t => decide (0 < t.dueDate) && decide (t.dueDate ≤ tomorrow)
      && !t.completed)

/-- One external call to the contract: the operation, its caller, and (for
creation, whose record stores `block.timestamp`) the block time. -/
inductive Op where
  | addTask (caller : Address) (title description : String)
      (priority dueDate now : Nat)
  | addTaskDefault (caller : Address) (title description : String) (now : Nat)
  | editTask (caller : Address) (taskId : Nat)
      (newTitle newDescription : String) (priority dueDate : Nat)
  | editTaskSimple (caller : Address) (taskId : Nat)
      (newTitle newDescription : String)
  | setTaskCompletion (caller : Address) (taskId : Nat) (status : Bool)
  | completeTask (caller : Address) (taskId : Nat)
  | uncompleteTask (caller : Address) (taskId : Nat)
  | deleteTask (caller : Address) (taskId : Nat)
  | adminDeleteTask (caller : Address) (taskId : Nat)
  | setPaused (caller : Address) (paused : Bool)
  | setMaxTasksPerUser (caller : Address) (maxTasks : Nat)

/-- The transaction sender of an operation. -/
def Op.caller : Op → Address
  | .addTask c _ _ _ _ _ => c
  | .addTaskDefault c _ _ _ => c
  | .editTask c _ _ _ _ _ => c
  | .editTaskSimple c _ _ _ => c
  | .setTaskCompletion c _ _ => c
  | .completeTask c _ => c
  | .uncompleteTask c _ => c
  | .deleteTask c _ => c
  | .adminDeleteTask c _ => c
  | .setPaused c _ => c
  | .setMaxTasksPerUser c _ => c

/-- Applying one call to the state: a revert (error) leaves the state
unchanged, per the ledger's atomic-transaction semantics. -/
def applyOp (s : State) (op : Op) : State :=
  match op with
  | .addTask c t d p dd now =>
      match addTask s c t d p dd now with
      | .ok (s', _, _) => s'
      | .error _ => s
  | .addTaskDefault c t d now =>
      match addTaskDefault s c t d now with
      | .ok (s', _, _) => s'
      | .error _ => s
  | .editTask c tid t d p dd =>
      match editTask s c tid t d p dd with
      | .ok (s', _) => s'
      | .error _ => s
  | .editTaskSimple c tid t d =>
      match editTaskSimple s c tid t d with
      | .ok (s', _) => s'
      | .error _ => s
  | .setTaskCompletion c tid st =>
      match setTaskCompletion s c tid st with
      | .ok (s', _) => s'
      | .error _ => s
  | .completeTask c tid =>
      match completeTask s c tid with
      | .ok (s', _) => s'
      | .error _ => s
  | .uncompleteTask c tid =>
      match uncompleteTask s c tid with
      | .ok (s', _) => s'
      | .error _ => s
  | .deleteTask c tid =>
      match deleteTask s c tid with
      | .ok (s', _) => s'
      | .error _ => s
  | .adminDeleteTask c tid =>
      match adminDeleteTask s c tid with
      | .ok (s', _) => s'
      | .error _ => s
  | .setPaused c p =>
      match setPaused s c p with
      | .ok (s', _) => s'
      | .error _ => s
  | .setMaxTasksPerUser c m =>
      match setMaxTasksPerUser s c m with
      | .ok (s', _) => s'
      | .error _ => s

/-- The id returned by `op` from state `s` if `op` is a successful
creation, as a (zero- or one-element) list. -/
def createdNow (s : State) (op : Op) : List Nat :=
  match op with
  | .addTask c t d p dd now =>
      match addTask s c t d p dd now with
      | .ok (_, _, id) => [id]
      | .error _ => []
  | .addTaskDefault c t d now =>
      match addTaskDefault s c t d now with
      | .ok (_, _, id) => [id]
      | .error _ => []
  | _ => []

/-- The ids returned by the successful creations of a run, in call order. -/
def traceIds (s : State) : List Op → List Nat
  | [] => []
  | op :: ops => createdNow s op ++ traceIds (applyOp s op) ops

/-- The store's structural invariant, established by the constructor and
preserved by every call (with real, nonzero senders):
* `ownerAlign` — every id in an owner's index resolves to a record whose
  `owner` field is that owner (the spec's ownership-index invariant);
* `live` — every record with a nonzero owner appears in that owner's index;
* `counterDom` — every indexed id was allocated by the counter;
* `nodup` — no index lists an id twice;
* `zeroEmpty` — the zero address (which can never be `msg.sender`) owns
  no index entries. -/
structure Inv (s : State) : Prop where
  ownerAlign : ∀ a id, id ∈ s.userTasks a → (s.tasks id).owner = a
  live : ∀ id, (s.tasks id).owner ≠ 0 → id ∈ s.userTasks ((s.tasks id).owner)
  counterDom : ∀ a id, id ∈ s.userTasks a → id < s.taskIdCounter
  nodup : ∀ a, (s.userTasks a).Nodup
  zeroEmpty : s.userTasks 0 = []

/-- A storage state reachable from deployment by any sequence of external
calls.  Senders are nonzero: on the host ledger `msg.sender` is a real
account and never `address(0)`. -/
def Reachable (s : State) : Prop :=
  ∃ (admin : Address) (ops : List Op), admin ≠ 0 ∧
    (∀ op ∈ ops, Op.caller op ≠ 0) ∧
    s = ops.foldl applyOp (initialState admin)

/-- A concrete run: deployer/admin `1`; address `2` creates one task
(id `0`, priority `Medium`, due date `5`) at block time `0`. -/
def sOne : State :=
  applyOp (initialState 1) (.addTask 2 "t" "d" 1 5 0)

/-- `sOne` after the admin pauses the store. -/
def sPausedOne : State :=
  applyOp sOne (.setPaused 1 true)

/-- A paused store holding no tasks at all. -/
def sPausedEmpty : State :=
  applyOp (initialState 1) (.setPaused 1 true)

/-- Address `2` creates one task with (nonzero) due date `5`; queried
later, at block time `10`, that due date is already in the past. -/
def sOverdue : State :=
  applyOp (initialState 1) (.addTask 2 "t" "d" 2 5 0)

@[simp] theorem updMap_same {β : Type} (f : Nat → β) (k : Nat) (v : β) :
    updMap f k v k = v := by
  simp [updMap]

theorem updMap_ne {β : Type} (f : Nat → β) (k : Nat) (v : β) {x : Nat}
    (h : x ≠ k) : updMap f k v x = f x := by
  simp [updMap, h]

theorem updMap_apply {β : Type} (f : Nat → β) (k : Nat) (v : β) (x : Nat) :
    updMap f k v x = if x = k then v else f x := rfl

theorem firstIdx_eq_none {l : List Nat} {x : Nat} :
    firstIdx l x = none ↔ x ∉ l := by
  induction l with
  | nil => simp [firstIdx]
  | cons y ys ih =>
    by_cases hy : y = x
    · subst hy; simp [firstIdx]
    · simp [firstIdx, hy, Option.map_eq_none', ih, Ne.symm hy]

theorem firstIdx_lt {l : List Nat} {x i : Nat} (h : firstIdx l x = some i) :
    i < l.length := by
  induction l generalizing i with
  | nil => simp [firstIdx] at h
  | cons y ys ih =>
    by_cases hy : y = x
    · simp only [firstIdx, if_pos hy, Option.some.injEq] at h
      subst h
      simp
    · simp only [firstIdx, if_neg hy, Option.map_eq_some'] at h
      obtain ⟨j, hj, rfl⟩ := h
      have := ih hj
      simp only [List.length_cons]
      omega

theorem swapPopRemove_of_not_mem {l : List Nat} {x : Nat} (h : x ∉ l) :
    swapPopRemove l x = l := by
  simp only [swapPopRemove]
  rw [firstIdx_eq_none.2 h]

theorem dropLast_append_getD :
    ∀ (l : List Nat), l ≠ [] → l.dropLast ++ [l.getD (l.length - 1) 0] = l
  | [_], _ => rfl
  | a :: b :: bs, _ => by
    have ih := dropLast_append_getD (b :: bs) (by simp)
    simp only [List.length_cons] at ih ⊢
    simpa [List.dropLast_cons_of_ne_nil] using ih

theorem set_dropLast_perm_erase {l : List Nat} {x i : Nat}
    (h : firstIdx l x = some i) :
    List.Perm ((l.set i (l.getD (l.length - 1) 0)).dropLast) (l.erase x) := by
  induction l generalizing i with
  | nil => simp [firstIdx] at h
  | cons y ys ih =>
    by_cases hy : y = x
    · subst hy
      have h0 : firstIdx (y :: ys) y = some 0 := by simp [firstIdx]
      rw [h0] at h
      injection h with h
      subst h
      rw [List.erase_cons_head]
      cases ys with
      | nil => simp
      | cons z zs =>
        have hzz : (z :: zs) ≠ [] := by simp
        have h2 := dropLast_append_getD (z :: zs) hzz
        simp only [List.length_cons, Nat.add_sub_cancel] at h2 ⊢
        simp only [List.getD_cons_succ, List.set_cons_zero]
        rw [List.dropLast_cons_of_ne_nil hzz]
        have h1 : List.Perm
            ((z :: zs).getD zs.length 0 :: (z :: zs).dropLast)
            ((z :: zs).dropLast ++ [(z :: zs).getD zs.length 0]) :=
          (List.perm_append_singleton _ _).symm
        rw [h2] at h1
        exact h1
    · have hy' : ¬ (y == x) := by simpa using hy
      simp only [firstIdx, if_neg hy, Option.map_eq_some'] at h
      obtain ⟨j, hj, rfl⟩ := h
      have hlt : j < ys.length := firstIdx_lt hj
      have hys : ys ≠ [] := by
        intro hnil; rw [hnil] at hlt; simp at hlt
      rw [List.erase_cons_tail hy']
      have hlen : (y :: ys).length - 1 = (ys.length - 1) + 1 := by
        simp only [List.length_cons]
        omega
      rw [hlen]
      simp only [List.getD_cons_succ, List.set_cons_succ]
      rw [List.dropLast_cons_of_ne_nil (by simp [hys])]
      exact (ih hj).cons y

theorem swapPopRemove_perm_erase (l : List Nat) (x : Nat) :
    List.Perm (swapPopRemove l x) (l.erase x) := by
  cases hfi : firstIdx l x with
  | none =>
    rw [swapPopRemove_of_not_mem (firstIdx_eq_none.1 hfi),
      List.erase_of_not_mem (firstIdx_eq_none.1 hfi)]
  | some i =>
    have h := set_dropLast_perm_erase hfi
    simpa [swapPopRemove, hfi] using h

theorem mem_swapPopRemove_iff {l : List Nat} (hnd : l.Nodup) {x y : Nat} :
    y ∈ swapPopRemove l x ↔ y ≠ x ∧ y ∈ l := by
  rw [(swapPopRemove_perm_erase l x).mem_iff, hnd.mem_erase_iff]

theorem swapPopRemove_subset {l : List Nat} {x y : Nat}
    (h : y ∈ swapPopRemove l x) : y ∈ l :=
  List.erase_subset _ _ ((swapPopRemove_perm_erase l x).mem_iff.1 h)

theorem nodup_swapPopRemove {l : List Nat} (hnd : l.Nodup) (x : Nat) :
    (swapPopRemove l x).Nodup :=
  (swapPopRemove_perm_erase l x).nodup_iff.2 (hnd.erase x)

theorem length_swapPopRemove_of_mem {l : List Nat} {x : Nat} (h : x ∈ l) :
    (swapPopRemove l x).length = l.length - 1 := by
  rw [(swapPopRemove_perm_erase l x).length_eq, List.length_erase_of_mem h]

theorem addTask_ok_elim {s : State} {c : Address} {t d : String}
    {p dd now : Nat} {s' : State} {ev : List Event} {id : Nat}
    (h : addTask s c t d p dd now = .ok (s', ev, id)) :
    s.paused = false ∧ p ≤ 2 ∧
    (s.userTasks c).length < s.maxTasksPerUser ∧
    id = s.taskIdCounter ∧
    ev = [Event.TaskAdded s.taskIdCounter c t (Priority.fromNat p) dd] ∧
    s' = { s with
            taskIdCounter := s.taskIdCounter + 1,
            tasks := updMap s.tasks s.taskIdCounter (newTask s c t d p dd now),
            userTasks := updMap s.userTasks c
              (s.userTasks c ++ [s.taskIdCounter]) } := by
  unfold addTask at h
  split at h
  · exact absurd h (by simp)
  · split at h
    · split at h
      · simp only [Except.ok.injEq, Prod.mk.injEq] at h
        obtain ⟨hs, hev, hid⟩ := h
        refine ⟨by simp_all, by assumption, by assumption, hid.symm, hev.symm,
          hs.symm⟩
      · exact absurd h (by simp)
    · exact absurd h (by simp)

theorem editTask_ok_elim {s : State} {c : Address} {tid : Nat}
    {t d : String} {p dd : Nat} {s' : State} {ev : List Event}
    (h : editTask s c tid t d p dd = .ok (s', ev)) :
    s.paused = false ∧ (s.tasks tid).owner = c ∧ p ≤ 2 ∧
    ev = [Event.TaskUpdated tid t d (Priority.fromNat p) dd] ∧
    s' = { s with
            tasks := updMap s.tasks tid
              { s.tasks tid with
                  title := t, description := d,
                  priority := Priority.fromNat p, dueDate := dd } } := by
  unfold editTask at h
  split at h
  · exact absurd h (by simp)
  · split at h
    · split at h
      · simp only [Except.ok.injEq, Prod.mk.injEq] at h
        obtain ⟨hs, hev⟩ := h
        exact ⟨by simp_all, by assumption, by assumption, hev.symm, hs.symm⟩
      · exact absurd h (by simp)
    · exact absurd h (by simp)

theorem editTaskSimple_ok_elim {s : State} {c : Address} {tid : Nat}
    {t d : String} {s' : State} {ev : List Event}
    (h : editTaskSimple s c tid t d = .ok (s', ev)) :
    s.paused = false ∧ (s.tasks tid).owner = c ∧
    ev = [Event.TaskUpdated tid t d (s.tasks tid).priority
      (s.tasks tid).dueDate] ∧
    s' = { s with
            tasks := updMap s.tasks tid
              { s.tasks tid with title := t, description := d } } := by
  unfold editTaskSimple at h
  split at h
  · exact absurd h (by simp)
  · split at h
    · simp only [Except.ok.injEq, Prod.mk.injEq] at h
      obtain ⟨hs, hev⟩ := h
      exact ⟨by simp_all, by assumption, hev.symm, hs.symm⟩
    · exact absurd h (by simp)

theorem setTaskCompletion_ok_elim {s : State} {c : Address} {tid : Nat}
    {st : Bool} {s' : State} {ev : List Event}
    (h : setTaskCompletion s c tid st = .ok (s', ev)) :
    s.paused = false ∧ (s.tasks tid).owner = c ∧
    ((s.tasks tid).completed ≠ st ∧
       ev = [Event.TaskCompleted tid st] ∧
       s' = { s with
               tasks := updMap s.tasks tid
                 { s.tasks tid with completed := st } } ∨
     (s.tasks tid).completed = st ∧ ev = [] ∧ s' = s) := by
  unfold setTaskCompletion at h
  split at h
  · exact absurd h (by simp)
  · split at h
    · split at h
      · simp only [Except.ok.injEq, Prod.mk.injEq] at h
        obtain ⟨hs, hev⟩ := h
        exact ⟨by simp_all, by assumption,
          Or.inl ⟨by assumption, hev.symm, hs.symm⟩⟩
      · simp only [Except.ok.injEq, Prod.mk.injEq] at h
        obtain ⟨hs, hev⟩ := h
        refine ⟨by simp_all, by assumption,
          Or.inr ⟨by simp_all, hev.symm, hs.symm⟩⟩
    · exact absurd h (by simp)

theorem deleteTask_ok_elim {s : State} {c : Address} {tid : Nat}
    {s' : State} {ev : List Event}
    (h : deleteTask s c tid = .ok (s', ev)) :
    s.paused = false ∧ (s.tasks tid).owner = c ∧
    ev = [Event.TaskDeleted tid] ∧
    s' = { s with
            userTasks := updMap s.userTasks c
              (swapPopRemove (s.userTasks c) tid),
            tasks := updMap s.tasks tid Task.empty } := by
  unfold deleteTask at h
  split at h
  · exact absurd h (by simp)
  · split at h
    · simp only [Except.ok.injEq, Prod.mk.injEq] at h
      obtain ⟨hs, hev⟩ := h
      exact ⟨by simp_all, by assumption, hev.symm, hs.symm⟩
    · exact absurd h (by simp)

theorem adminDeleteTask_ok_elim {s : State} {c : Address} {tid : Nat}
    {s' : State} {ev : List Event}
    (h : adminDeleteTask s c tid = .ok (s', ev)) :
    c = s.admin ∧ ev = [Event.TaskDeleted tid] ∧
    s' = { s with
            userTasks := updMap s.userTasks ((s.tasks tid).owner)
              (swapPopRemove (s.userTasks ((s.tasks tid).owner)) tid),
            tasks := updMap s.tasks tid Task.empty } := by
  unfold adminDeleteTask at h
  split at h
  · simp only [Except.ok.injEq, Prod.mk.injEq] at h
    obtain ⟨hs, hev⟩ := h
    exact ⟨by assumption, hev.symm, hs.symm⟩
  · exact absurd h (by simp)

theorem setPaused_ok_elim {s : State} {c : Address} {b : Bool}
    {s' : State} {ev : List Event}
    (h : setPaused s c b = .ok (s', ev)) :
    c = s.admin ∧ s'.paused = b ∧ s'.tasks = s.tasks ∧
    s'.userTasks = s.userTasks ∧ s'.taskIdCounter = s.taskIdCounter ∧
    s'.maxTasksPerUser = s.maxTasksPerUser ∧ s'.admin = s.admin := by
  unfold setPaused at h
  split at h
  · split at h
    · simp only [Except.ok.injEq, Prod.mk.injEq] at h
      obtain ⟨hs, hev⟩ := h
      subst hs
      simp_all
    · simp only [Except.ok.injEq, Prod.mk.injEq] at h
      obtain ⟨hs, hev⟩ := h
      subst hs
      simp_all
  · exact absurd h (by simp)

theorem Inv_initialState (admin : Address) : Inv (initialState admin) := by
  constructor
  · intro a id hmem
    simp [initialState] at hmem
  · intro id hown
    simp [initialState, Task.empty] at hown
  · intro a id hmem
    simp [initialState] at hmem
  · intro a
    simp [initialState]
  · simp [initialState]

theorem Inv_of_eq_parts {s s' : State} (hInv : Inv s)
    (ht : s'.tasks = s.tasks) (hu : s'.userTasks = s.userTasks)
    (hc : s.taskIdCounter ≤ s'.taskIdCounter) : Inv s' := by
  constructor
  · intro a id hmem
    rw [hu] at hmem
    rw [ht]
    exact hInv.ownerAlign a id hmem
  · intro id hown
    rw [ht] at hown ⊢
    rw [hu]
    exact hInv.live id hown
  · intro a id hmem
    rw [hu] at hmem
    exact lt_of_lt_of_le (hInv.counterDom a id hmem) hc
  · intro a
    rw [hu]
    exact hInv.nodup a
  · rw [hu]
    exact hInv.zeroEmpty

theorem Inv_updTask {s : State} (hInv : Inv s) {tid : Nat} {t' : Task}
    (hown : t'.owner = (s.tasks tid).owner) :
    Inv { s with tasks := updMap s.tasks tid t' } := by
  constructor
  · intro a id hmem
    dsimp only at hmem
    show (updMap s.tasks tid t' id).owner = a
    by_cases hid : id = tid
    · subst hid
      rw [updMap_same, hown]
      exact hInv.ownerAlign a id hmem
    · rw [updMap_ne _ _ _ hid]
      exact hInv.ownerAlign a id hmem
  · intro id h0
    dsimp only at h0
    show id ∈ s.userTasks ((updMap s.tasks tid t' id).owner)
    by_cases hid : id = tid
    · subst hid
      rw [updMap_same] at h0 ⊢
      rw [hown] at h0 ⊢
      exact hInv.live _ h0
    · rw [updMap_ne _ _ _ hid] at h0 ⊢
      exact hInv.live _ h0
  · exact hInv.counterDom
  · exact hInv.nodup
  · exact hInv.zeroEmpty

theorem Inv_deleteShape {s : State} (hInv : Inv s) {o tid : Nat}
    (ho : (s.tasks tid).owner = o) :
    Inv { s with
            userTasks := updMap s.userTasks o
              (swapPopRemove (s.userTasks o) tid),
            tasks := updMap s.tasks tid Task.empty } := by
  constructor
  · intro a id hmem
    dsimp only at hmem
    show (updMap s.tasks tid Task.empty id).owner = a
    by_cases ha : a = o
    · subst ha
      rw [updMap_same] at hmem
      have hmem' := (mem_swapPopRemove_iff (hInv.nodup a)).1 hmem
      rw [updMap_ne _ _ _ hmem'.1]
      exact hInv.ownerAlign a id hmem'.2
    · rw [updMap_ne _ _ _ ha] at hmem
      have hid : id ≠ tid := by
        intro hh
        subst hh
        exact ha ((hInv.ownerAlign a id hmem).symm.trans ho)
      rw [updMap_ne _ _ _ hid]
      exact hInv.ownerAlign a id hmem
  · intro id h0
    dsimp only at h0
    show id ∈ updMap s.userTasks o (swapPopRemove (s.userTasks o) tid)
      ((updMap s.tasks tid Task.empty id).owner)
    by_cases hid : id = tid
    · subst hid
      exact absurd (show (updMap s.tasks id Task.empty id).owner = 0 by
        rw [updMap_same]; rfl) h0
    · rw [updMap_ne _ _ _ hid] at h0 ⊢
      have hl := hInv.live id h0
      by_cases ho' : (s.tasks id).owner = o
      · rw [ho', updMap_same]
        exact (mem_swapPopRemove_iff (hInv.nodup o)).2 ⟨hid, ho' ▸ hl⟩
      · rw [updMap_ne _ _ _ ho']
        exact hl
  · intro a id hmem
    dsimp only at hmem
    show id < s.taskIdCounter
    by_cases ha : a = o
    · subst ha
      rw [updMap_same] at hmem
      exact hInv.counterDom a id (swapPopRemove_subset hmem)
    · rw [updMap_ne _ _ _ ha] at hmem
      exact hInv.counterDom a id hmem
  · intro a
    show (updMap s.userTasks o (swapPopRemove (s.userTasks o) tid) a).Nodup
    by_cases ha : a = o
    · subst ha
      rw [updMap_same]
      exact nodup_swapPopRemove (hInv.nodup a) tid
    · rw [updMap_ne _ _ _ ha]
      exact hInv.nodup a
  · show updMap s.userTasks o (swapPopRemove (s.userTasks o) tid) 0 = []
    by_cases h0 : o = 0
    · subst h0
      rw [updMap_same, hInv.zeroEmpty]
      rfl
    · rw [updMap_ne _ _ _ (Ne.symm h0)]
      exact hInv.zeroEmpty

theorem Inv_addShape {s : State} (hInv : Inv s) {c : Address} (hc : c ≠ 0)
    (t d : String) (p dd now : Nat) :
    Inv { s with
            taskIdCounter := s.taskIdCounter + 1,
            tasks := updMap s.tasks s.taskIdCounter (newTask s c t d p dd now),
            userTasks := updMap s.userTasks c
              (s.userTasks c ++ [s.taskIdCounter]) } := by
  constructor
  · intro a id hmem
    dsimp only at hmem
    show (updMap s.tasks s.taskIdCounter (newTask s c t d p dd now) id).owner
      = a
    by_cases ha : a = c
    · subst ha
      rw [updMap_same] at hmem
      rcases List.mem_append.1 hmem with hin | hK
      · have hlt := hInv.counterDom a id hin
        rw [updMap_ne _ _ _ (Nat.ne_of_lt hlt)]
        exact hInv.ownerAlign a id hin
      · have hK' : id = s.taskIdCounter := by simpa using hK
        rw [hK', updMap_same]
        rfl
    · rw [updMap_ne _ _ _ ha] at hmem
      have hlt := hInv.counterDom a id hmem
      rw [updMap_ne _ _ _ (Nat.ne_of_lt hlt)]
      exact hInv.ownerAlign a id hmem
  · intro id h0
    dsimp only at h0
    show id ∈ updMap s.userTasks c (s.userTasks c ++ [s.taskIdCounter])
      ((updMap s.tasks s.taskIdCounter (newTask s c t d p dd now) id).owner)
    by_cases hid : id = s.taskIdCounter
    · rw [hid, updMap_same]
      show s.taskIdCounter ∈ updMap s.userTasks c
        (s.userTasks c ++ [s.taskIdCounter]) c
      rw [updMap_same]
      exact List.mem_append.2 (Or.inr (by simp))
    · rw [updMap_ne _ _ _ hid] at h0 ⊢
      have hl := hInv.live id h0
      by_cases ho : (s.tasks id).owner = c
      · rw [ho] at hl ⊢
        rw [updMap_same]
        exact List.mem_append.2 (Or.inl hl)
      · rw [updMap_ne _ _ _ ho]
        exact hl
  · intro a id hmem
    dsimp only at hmem
    show id < s.taskIdCounter + 1
    by_cases ha : a = c
    · subst ha
      rw [updMap_same] at hmem
      rcases List.mem_append.1 hmem with hin | hK
      · exact Nat.lt_trans (hInv.counterDom a id hin) (Nat.lt_succ_self _)
      · have hK' : id = s.taskIdCounter := by simpa using hK
        rw [hK']
        exact Nat.lt_succ_self _
    · rw [updMap_ne _ _ _ ha] at hmem
      exact Nat.lt_trans (hInv.counterDom a id hmem) (Nat.lt_succ_self _)
  · intro a
    show (updMap s.userTasks c (s.userTasks c ++ [s.taskIdCounter]) a).Nodup
    by_cases ha : a = c
    · subst ha
      rw [updMap_same, List.nodup_append]
      refine ⟨hInv.nodup a, List.nodup_singleton _, ?_⟩
      intro x hx hx1
      have hx' : x = s.taskIdCounter := by simpa using hx1
      rw [hx'] at hx
      exact absurd (hInv.counterDom a _ hx) (lt_irrefl _)
    · rw [updMap_ne _ _ _ ha]
      exact hInv.nodup a
  · show updMap s.userTasks c (s.userTasks c ++ [s.taskIdCounter]) 0 = []
    rw [updMap_ne _ _ _ (Ne.symm hc)]
    exact hInv.zeroEmpty

theorem setMaxTasksPerUser_ok_elim {s : State} {c : Address} {m : Nat}
    {s' : State} {ev : List Event}
    (h : setMaxTasksPerUser s c m = .ok (s', ev)) :
    c = s.admin ∧ s'.maxTasksPerUser = m ∧ s'.tasks = s.tasks ∧
    s'.userTasks = s.userTasks ∧ s'.taskIdCounter = s.taskIdCounter ∧
    s'.paused = s.paused ∧ s'.admin = s.admin := by
  unfold setMaxTasksPerUser at h
  split at h
  · split at h
    · simp only [Except.ok.injEq, Prod.mk.injEq] at h
      obtain ⟨hs, hev⟩ := h
      subst hs
      simp_all
    · simp only [Except.ok.injEq, Prod.mk.injEq] at h
      obtain ⟨hs, hev⟩ := h
      subst hs
      simp_all
  · exact absurd h (by simp)

theorem Inv_applyOp {s : State} (hInv : Inv s) (op : Op)
    (hc : Op.caller op ≠ 0) : Inv (applyOp s op) := by
  cases op with
  | addTask c t d p dd now =>
    simp only [applyOp]
    cases h : addTask s c t d p dd now with
    | error e => exact hInv
    | ok r =>
      obtain ⟨s', ev, id⟩ := r
      obtain ⟨-, -, -, -, -, hs⟩ := addTask_ok_elim h
      rw [hs]
      exact Inv_addShape hInv hc t d p dd now
  | addTaskDefault c t d now =>
    simp only [applyOp]
    cases h : addTaskDefault s c t d now with
    | error e => exact hInv
    | ok r =>
      obtain ⟨s', ev, id⟩ := r
      simp only [addTaskDefault] at h
      obtain ⟨-, -, -, -, -, hs⟩ := addTask_ok_elim h
      rw [hs]
      exact Inv_addShape hInv hc t d 1 0 now
  | editTask c tid t d p dd =>
    simp only [applyOp]
    cases h : editTask s c tid t d p dd with
    | error e => exact hInv
    | ok r =>
      obtain ⟨s', ev⟩ := r
      obtain ⟨-, -, -, -, hs⟩ := editTask_ok_elim h
      rw [hs]
      exact Inv_updTask hInv rfl
  | editTaskSimple c tid t d =>
    simp only [applyOp]
    cases h : editTaskSimple s c tid t d with
    | error e => exact hInv
    | ok r =>
      obtain ⟨s', ev⟩ := r
      obtain ⟨-, -, -, hs⟩ := editTaskSimple_ok_elim h
      rw [hs]
      exact Inv_updTask hInv rfl
  | setTaskCompletion c tid st =>
    simp only [applyOp]
    cases h : setTaskCompletion s c tid st with
    | error e => exact hInv
    | ok r =>
      obtain ⟨s', ev⟩ := r
      obtain ⟨-, -, hcase⟩ := setTaskCompletion_ok_elim h
      rcases hcase with ⟨-, -, hs⟩ | ⟨-, -, hs⟩
      · rw [hs]
        exact Inv_updTask hInv rfl
      · rw [hs]
        exact hInv
  | completeTask c tid =>
    simp only [applyOp]
    cases h : completeTask s c tid with
    | error e => exact hInv
    | ok r =>
      obtain ⟨s', ev⟩ := r
      simp only [completeTask] at h
      obtain ⟨-, -, hcase⟩ := setTaskCompletion_ok_elim h
      rcases hcase with ⟨-, -, hs⟩ | ⟨-, -, hs⟩
      · rw [hs]
        exact Inv_updTask hInv rfl
      · rw [hs]
        exact hInv
  | uncompleteTask c tid =>
    simp only [applyOp]
    cases h : uncompleteTask s c tid with
    | error e => exact hInv
    | ok r =>
      obtain ⟨s', ev⟩ := r
      simp only [uncompleteTask] at h
      obtain ⟨-, -, hcase⟩ := setTaskCompletion_ok_elim h
      rcases hcase with ⟨-, -, hs⟩ | ⟨-, -, hs⟩
      · rw [hs]
        exact Inv_updTask hInv rfl
      · rw [hs]
        exact hInv
  | deleteTask c tid =>
    simp only [applyOp]
    cases h : deleteTask s c tid with
    | error e => exact hInv
    | ok r =>
      obtain ⟨s', ev⟩ := r
      obtain ⟨-, ho, -, hs⟩ := deleteTask_ok_elim h
      rw [hs]
      exact Inv_deleteShape hInv ho
  | adminDeleteTask c tid =>
    simp only [applyOp]
    cases h : adminDeleteTask s c tid with
    | error e => exact hInv
    | ok r =>
      obtain ⟨s', ev⟩ := r
      obtain ⟨-, -, hs⟩ := adminDeleteTask_ok_elim h
      rw [hs]
      exact Inv_deleteShape hInv rfl
  | setPaused c b =>
    simp only [applyOp]
    cases h : setPaused s c b with
    | error e => exact hInv
    | ok r =>
      obtain ⟨s', ev⟩ := r
      obtain ⟨-, -, ht, hu, hcnt, -, -⟩ := setPaused_ok_elim h
      exact Inv_of_eq_parts hInv ht hu (le_of_eq hcnt.symm)
  | setMaxTasksPerUser c m =>
    simp only [applyOp]
    cases h : setMaxTasksPerUser s c m with
    | error e => exact hInv
    | ok r =>
      obtain ⟨s', ev⟩ := r
      obtain ⟨-, -, ht, hu, hcnt, -, -⟩ := setMaxTasksPerUser_ok_elim h
      exact Inv_of_eq_parts hInv ht hu (le_of_eq hcnt.symm)

theorem Inv_foldl {s : State} (hInv : Inv s) (ops : List Op)
    (hc : ∀ op ∈ ops, Op.caller op ≠ 0) : Inv (ops.foldl applyOp s) := by
  induction ops generalizing s with
  | nil => exact hInv
  | cons op ops ih =>
    exact ih (Inv_applyOp hInv op (hc op (by simp)))
      (fun o ho => hc o (by simp [ho]))

theorem Inv_of_Reachable {s : State} (h : Reachable s) : Inv s := by
  obtain ⟨admin, ops, -, hc, rfl⟩ := h
  exact Inv_foldl (Inv_initialState admin) ops hc

theorem counter_mono (s : State) (op : Op) :
    s.taskIdCounter ≤ (applyOp s op).taskIdCounter := by
  cases op with
  | addTask c t d p dd now =>
    simp only [applyOp]
    cases h : addTask s c t d p dd now with
    | error e => exact Nat.le_refl _
    | ok r =>
      obtain ⟨s', ev, id⟩ := r
      obtain ⟨-, -, -, -, -, hs⟩ := addTask_ok_elim h
      rw [hs]
      exact Nat.le_succ _
  | addTaskDefault c t d now =>
    simp only [applyOp]
    cases h : addTaskDefault s c t d now with
    | error e => exact Nat.le_refl _
    | ok r =>
      obtain ⟨s', ev, id⟩ := r
      simp only [addTaskDefault] at h
      obtain ⟨-, -, -, -, -, hs⟩ := addTask_ok_elim h
      rw [hs]
      exact Nat.le_succ _
  | editTask c tid t d p dd =>
    simp only [applyOp]
    cases h : editTask s c tid t d p dd with
    | error e => exact Nat.le_refl _
    | ok r =>
      obtain ⟨s', ev⟩ := r
      obtain ⟨-, -, -, -, hs⟩ := editTask_ok_elim h
      rw [hs]
  | editTaskSimple c tid t d =>
    simp only [applyOp]
    cases h : editTaskSimple s c tid t d with
    | error e => exact Nat.le_refl _
    | ok r =>
      obtain ⟨s', ev⟩ := r
      obtain ⟨-, -, -, hs⟩ := editTaskSimple_ok_elim h
      rw [hs]
  | setTaskCompletion c tid st =>
    simp only [applyOp]
    cases h : setTaskCompletion s c tid st with
    | error e => exact Nat.le_refl _
    | ok r =>
      obtain ⟨s', ev⟩ := r
      obtain ⟨-, -, hcase⟩ := setTaskCompletion_ok_elim h
      rcases hcase with ⟨-, -, hs⟩ | ⟨-, -, hs⟩ <;> rw [hs]
  | completeTask c tid =>
    simp only [applyOp]
    cases h : completeTask s c tid with
    | error e => exact Nat.le_refl _
    | ok r =>
      obtain ⟨s', ev⟩ := r
      simp only [completeTask] at h
      obtain ⟨-, -, hcase⟩ := setTaskCompletion_ok_elim h
      rcases hcase with ⟨-, -, hs⟩ | ⟨-, -, hs⟩ <;> rw [hs]
  | uncompleteTask c tid =>
    simp only [applyOp]
    cases h : uncompleteTask s c tid with
    | error e => exact Nat.le_refl _
    | ok r =>
      obtain ⟨s', ev⟩ := r
      simp only [uncompleteTask] at h
      obtain ⟨-, -, hcase⟩ := setTaskCompletion_ok_elim h
      rcases hcase with ⟨-, -, hs⟩ | ⟨-, -, hs⟩ <;> rw [hs]
  | deleteTask c tid =>
    simp only [applyOp]
    cases h : deleteTask s c tid with
    | error e => exact Nat.le_refl _
    | ok r =>
      obtain ⟨s', ev⟩ := r
      obtain ⟨-, -, -, hs⟩ := deleteTask_ok_elim h
      rw [hs]
  | adminDeleteTask c tid =>
    simp only [applyOp]
    cases h : adminDeleteTask s c tid with
    | error e => exact Nat.le_refl _
    | ok r =>
      obtain ⟨s', ev⟩ := r
      obtain ⟨-, -, hs⟩ := adminDeleteTask_ok_elim h
      rw [hs]
  | setPaused c b =>
    simp only [applyOp]
    cases h : setPaused s c b with
    | error e => exact Nat.le_refl _
    | ok r =>
      obtain ⟨s', ev⟩ := r
      obtain ⟨-, -, -, -, hcnt, -, -⟩ := setPaused_ok_elim h
      exact le_of_eq hcnt.symm
  | setMaxTasksPerUser c m =>
    simp only [applyOp]
    cases h : setMaxTasksPerUser s c m with
    | error e => exact Nat.le_refl _
    | ok r =>
      obtain ⟨s', ev⟩ := r
      obtain ⟨-, -, -, -, hcnt, -, -⟩ := setMaxTasksPerUser_ok_elim h
      exact le_of_eq hcnt.symm

theorem createdNow_mem {s : State} {op : Op} {id : Nat}
    (h : id ∈ createdNow s op) :
    id = s.taskIdCounter ∧
      (applyOp s op).taskIdCounter = s.taskIdCounter + 1 := by
  cases op with
  | addTask c t d p dd now =>
    simp only [createdNow] at h
    cases hh : addTask s c t d p dd now with
    | error e =>
      rw [hh] at h
      simp at h
    | ok r =>
      obtain ⟨s', ev, i⟩ := r
      rw [hh] at h
      have hi : id = i := by simpa using h
      obtain ⟨-, -, -, hid, -, hs⟩ := addTask_ok_elim hh
      subst hi
      refine ⟨hid, ?_⟩
      simp only [applyOp]
      rw [hh, hs]
  | addTaskDefault c t d now =>
    simp only [createdNow] at h
    cases hh : addTaskDefault s c t d now with
    | error e =>
      rw [hh] at h
      simp at h
    | ok r =>
      obtain ⟨s', ev, i⟩ := r
      rw [hh] at h
      have hi : id = i := by simpa using h
      have hh' := hh
      simp only [addTaskDefault] at hh'
      obtain ⟨-, -, -, hid, -, hs⟩ := addTask_ok_elim hh'
      subst hi
      refine ⟨hid, ?_⟩
      simp only [applyOp]
      rw [hh, hs]
  | editTask c tid t d p dd => simp [createdNow] at h
  | editTaskSimple c tid t d => simp [createdNow] at h
  | setTaskCompletion c tid st => simp [createdNow] at h
  | completeTask c tid => simp [createdNow] at h
  | uncompleteTask c tid => simp [createdNow] at h
  | deleteTask c tid => simp [createdNow] at h
  | adminDeleteTask c tid => simp [createdNow] at h
  | setPaused c b => simp [createdNow] at h
  | setMaxTasksPerUser c m => simp [createdNow] at h

theorem createdNow_pairwise (s : State) (op : Op) :
    (createdNow s op).Pairwise (· < ·) := by
  cases op with
  | addTask c t d p dd now =>
    simp only [createdNow]
    cases addTask s c t d p dd now with
    | error e => simp
    | ok r => simp
  | addTaskDefault c t d now =>
    simp only [createdNow]
    cases addTaskDefault s c t d now with
    | error e => simp
    | ok r => simp
  | editTask c tid t d p dd => simp [createdNow]
  | editTaskSimple c tid t d => simp [createdNow]
  | setTaskCompletion c tid st => simp [createdNow]
  | completeTask c tid => simp [createdNow]
  | uncompleteTask c tid => simp [createdNow]
  | deleteTask c tid => simp [createdNow]
  | adminDeleteTask c tid => simp [createdNow]
  | setPaused c b => simp [createdNow]
  | setMaxTasksPerUser c m => simp [createdNow]

theorem traceIds_lower {s : State} {ops : List Op} {id : Nat}
    (h : id ∈ traceIds s ops) : s.taskIdCounter ≤ id := by
  induction ops generalizing s with
  | nil => simp [traceIds] at h
  | cons op ops ih =>
    rw [traceIds] at h
    rcases List.mem_append.1 h with h1 | h2
    · exact le_of_eq (createdNow_mem h1).1.symm
    · exact le_trans (counter_mono s op) (ih h2)

theorem traceIds_pairwise (s : State) (ops : List Op) :
    (traceIds s ops).Pairwise (· < ·) := by
  induction ops generalizing s with
  | nil => simp [traceIds]
  | cons op ops ih =>
    rw [traceIds, List.pairwise_append]
    refine ⟨createdNow_pairwise s op, ih _, ?_⟩
    intro a ha b hb
    obtain ⟨ha1, ha2⟩ := createdNow_mem ha
    have hb1 := traceIds_lower hb
    rw [ha2] at hb1
    rw [ha1]
    omega

theorem Inv_sOne : Inv sOne := by
  have h : Reachable sOne := by
    refine ⟨1, [Op.addTask 2 "t" "d" 1 5 0], by decide, ?_, rfl⟩
    intro op hop
    simp only [List.mem_singleton] at hop
    subst hop
    decide
  exact Inv_of_Reachable h

theorem Inv_sPausedOne : Inv sPausedOne := by
  have h : Reachable sPausedOne := by
    refine ⟨1, [Op.addTask 2 "t" "d" 1 5 0, Op.setPaused 1 true],
      by decide, ?_, rfl⟩
    intro op hop
    simp only [List.mem_cons, List.not_mem_nil, or_false] at hop
    rcases hop with rfl | rfl <;> decide
  exact Inv_of_Reachable h

/-- C1 counterexample: in the reachable paused state `sPausedOne`, the
owner (address 2) of task 0 calls `editTask` (both forms, with a valid
priority) and the call fails with the pause error — the claim that an
owner's edit succeeds regardless of the pause state is false: `editTask`
carries the `whenNotPaused` modifier. -/
theorem claim_C1_counterexample :
    (sPausedOne.tasks 0).owner = 2 ∧ sPausedOne.paused = true ∧
    editTask sPausedOne 2 0 "nt" "nd" 1 0 = Except.error Err.Paused ∧
    editTaskSimple sPausedOne 2 0 "nt" "nd" = Except.error Err.Paused :=
  ⟨rfl, rfl, rfl, rfl⟩

/-- C1 (amended): an edit call has two preconditions — ownership and the
store not being paused.  When the store is not paused, an owner's edit
with a valid priority succeeds and overwrites exactly the mutable fields;
when the store is paused, edit fails with the pause error (the revert
leaves the store unchanged). -/
theorem claim_C1_edit_requires_unpaused (s : State) (c : Address)
    (tid : Nat) (t d : String) (p dd : Nat)
    (hown : (s.tasks tid).owner = c) (hp : p ≤ 2) :
    (s.paused = true →
      editTask s c tid t d p dd = Except.error Err.Paused ∧
      editTaskSimple s c tid t d = Except.error Err.Paused) ∧
    (s.paused = false →
      (∃ s', editTask s c tid t d p dd =
          Except.ok (s', [Event.TaskUpdated tid t d (Priority.fromNat p) dd]) ∧
        s'.tasks tid = { s.tasks tid with
                           title := t, description := d,
                           priority := Priority.fromNat p, dueDate := dd } ∧
        (∀ id, id ≠ tid → s'.tasks id = s.tasks id) ∧
        s'.userTasks = s.userTasks ∧ s'.taskIdCounter = s.taskIdCounter ∧
        s'.paused = s.paused) ∧
      (∃ s', editTaskSimple s c tid t d =
          Except.ok (s', [Event.TaskUpdated tid t d (s.tasks tid).priority
            (s.tasks tid).dueDate]) ∧
        s'.tasks tid = { s.tasks tid with title := t, description := d } ∧
        (∀ id, id ≠ tid → s'.tasks id = s.tasks id) ∧
        s'.userTasks = s.userTasks)) := by
  constructor
  · intro hpause
    constructor
    · simp [editTask, hpause]
    · simp [editTaskSimple, hpause]
  · intro hpause
    constructor
    · refine ⟨{ s with tasks := updMap s.tasks tid { s.tasks tid with
          title := t, description := d, priority := Priority.fromNat p,
          dueDate := dd } }, ?_, updMap_same _ _ _,
        fun id hid => updMap_ne _ _ _ hid, rfl, rfl, rfl⟩
      simp [editTask, hpause, hown, hp]
    · refine ⟨{ s with tasks := updMap s.tasks tid { s.tasks tid with
          title := t, description := d } }, ?_, updMap_same _ _ _,
        fun id hid => updMap_ne _ _ _ hid, rfl⟩
      simp [editTaskSimple, hpause, hown]

/-- Witness for C1 (amended) at the unpaused one-task state `sOne`. -/
theorem claim_C1_witness :
    ∃ s', editTask sOne 2 0 "nt" "nd" 2 7 =
        Except.ok (s', [Event.TaskUpdated 0 "nt" "nd" (Priority.fromNat 2) 7]) ∧
      s'.tasks 0 = { sOne.tasks 0 with
                       title := "nt", description := "nd",
                       priority := Priority.fromNat 2, dueDate := 7 } ∧
      (∀ id, id ≠ 0 → s'.tasks id = sOne.tasks id) ∧
      s'.userTasks = sOne.userTasks ∧ s'.taskIdCounter = sOne.taskIdCounter ∧
      s'.paused = sOne.paused :=
  (((claim_C1_edit_requires_unpaused sOne 2 0 "nt" "nd" 2 7 rfl
    (by decide)).2 rfl)).1

/-- C2 counterexample: in the reachable paused state `sPausedOne`, the
owner's `deleteTask` and `setTaskCompletion` both fail with the pause
error — both carry the `whenNotPaused` modifier, so deletion and
completion toggling are NOT available while paused. -/
theorem claim_C2_counterexample :
    (sPausedOne.tasks 0).owner = 2 ∧ sPausedOne.paused = true ∧
    deleteTask sPausedOne 2 0 = Except.error Err.Paused ∧
    setTaskCompletion sPausedOne 2 0 true = Except.error Err.Paused :=
  ⟨rfl, rfl, rfl, rfl⟩

/-- C2 (amended): the paused flag blocks ALL mutating task operations —
create, edit, completion toggling and owner deletion alike (only
`adminDeleteTask` is exempt).  When the store is not paused, the owner's
delete and completion calls succeed. -/
theorem claim_C2_pause_blocks_all_writes (s : State) (c : Address)
    (tid : Nat) (st : Bool) :
    (s.paused = true →
      deleteTask s c tid = Except.error Err.Paused ∧
      setTaskCompletion s c tid st = Except.error Err.Paused) ∧
    (s.paused = false → (s.tasks tid).owner = c →
      (∃ r, deleteTask s c tid = Except.ok r) ∧
      (∃ r, setTaskCompletion s c tid st = Except.ok r)) := by
  constructor
  · intro hpause
    constructor
    · simp [deleteTask, hpause]
    · simp [setTaskCompletion, hpause]
  · intro hpause hown
    constructor
    · cases h : deleteTask s c tid with
      | ok r => exact ⟨r, rfl⟩
      | error e => simp [deleteTask, hpause, hown] at h
    · by_cases hst : (s.tasks tid).completed = st
      · cases h : setTaskCompletion s c tid st with
        | ok r => exact ⟨r, rfl⟩
        | error e => simp [setTaskCompletion, hpause, hown, hst] at h
      · cases h : setTaskCompletion s c tid st with
        | ok r => exact ⟨r, rfl⟩
        | error e => simp [setTaskCompletion, hpause, hown, hst] at h

/-- Witness for C2 (amended): both halves at concrete states. -/
theorem claim_C2_witness :
    (deleteTask sPausedOne 2 0 = Except.error Err.Paused ∧
      setTaskCompletion sPausedOne 2 0 true = Except.error Err.Paused) ∧
    ((∃ r, deleteTask sOne 2 0 = Except.ok r) ∧
      (∃ r, setTaskCompletion sOne 2 0 true = Except.ok r)) :=
  ⟨(claim_C2_pause_blocks_all_writes sPausedOne 2 0 true).1 rfl,
   (claim_C2_pause_blocks_all_writes sOne 2 0 true).2 rfl rfl⟩

/-- C3 counterexample: in `sOverdue` at block time 10, task 0 has the
set due date 5, which is in the past — NOT within the next 24 hours from
the current time — yet `fetchTasksDueSoon` returns it: the filter is
`0 < dueDate ≤ now + 1 days` with no lower bound at `now`, so the claim's
"exactly those ... whose due date falls within the next 24 hours" is
false. -/
theorem claim_C3_counterexample :
    fetchTasksDueSoon sOverdue 2 10 = [sOverdue.tasks 0] ∧
    (sOverdue.tasks 0).dueDate = 5 ∧
    (sOverdue.tasks 0).completed = false ∧
    ¬ (10 ≤ (sOverdue.tasks 0).dueDate) :=
  ⟨rfl, rfl, rfl, by decide⟩

/-- C3 (amended): `fetchTasksDueSoon` returns exactly the caller's
incomplete tasks whose due date is set (nonzero) and at most 24 hours
(86400 s) AFTER the current time — overdue tasks (set due date already in
the past) are included; tasks with `dueDate = 0`, completed tasks, and
tasks due more than 24 hours ahead are excluded. -/
theorem claim_C3_dueSoon_characterization (s : State) (c : Address)
    (now : Nat) (t : Task) :
    t ∈ fetchTasksDueSoon s c now ↔
      (∃ id ∈ s.userTasks c, s.tasks id = t) ∧
      t.dueDate ≠ 0 ∧ t.dueDate ≤ now + 86400 ∧ t.completed = false := by
  simp only [fetchTasksDueSoon, List.mem_filter, List.mem_map,
    Bool.and_eq_true, decide_eq_true_eq, Bool.not_eq_true']
  constructor
  · rintro ⟨⟨id, hid, rfl⟩, ⟨h1, h2⟩, h3⟩
    exact ⟨⟨id, hid, rfl⟩, Nat.pos_iff_ne_zero.1 h1, h2, h3⟩
  · rintro ⟨⟨id, hid, rfl⟩, h1, h2, h3⟩
    exact ⟨⟨id, hid, rfl⟩, ⟨Nat.pos_iff_ne_zero.2 h1, h2⟩, h3⟩

/-- C4: over any run of external calls from deployment, the ids returned
by successful creations are pairwise strictly increasing in call order —
ids are strictly increasing and never reused, even after deletions. -/
theorem claim_C4_ids_strictly_increasing (admin : Address) (ops : List Op) :
    (traceIds (initialState admin) ops).Pairwise (· < ·) :=
  traceIds_pairwise (initialState admin) ops

/-- C5: `addTask` fails with the pause error when paused, the
invalid-priority error when `priority > 2`, the limit error when the
caller's index length is at or above the per-user maximum; otherwise it
succeeds, returns the counter value as id, stores the record with the
caller as owner, and appends the id to the caller's index.  After the
admin unpauses, a previously blocked create succeeds. -/
theorem claim_C5_create_conditions (s : State) (c : Address)
    (t d : String) (p dd now : Nat) :
    (s.paused = true → addTask s c t d p dd now = Except.error Err.Paused) ∧
    (s.paused = false → 2 < p →
      addTask s c t d p dd now = Except.error Err.InvalidPriority) ∧
    (s.paused = false → p ≤ 2 →
      s.maxTasksPerUser ≤ (s.userTasks c).length →
      addTask s c t d p dd now = Except.error Err.LimitReached) ∧
    (s.paused = false → p ≤ 2 →
      (s.userTasks c).length < s.maxTasksPerUser →
      ∃ s' ev, addTask s c t d p dd now =
          Except.ok (s', ev, s.taskIdCounter) ∧
        s'.tasks s.taskIdCounter = newTask s c t d p dd now ∧
        (s'.tasks s.taskIdCounter).owner = c ∧
        s'.userTasks c = s.userTasks c ++ [s.taskIdCounter]) ∧
    (∀ s1 ev1, s.paused = true → setPaused s s.admin false = Except.ok (s1, ev1) →
      p ≤ 2 → (s1.userTasks c).length < s1.maxTasksPerUser →
      ∃ r, addTask s1 c t d p dd now = Except.ok r) := by
  refine ⟨?_, ?_, ?_, ?_, ?_⟩
  · intro hpause
    simp [addTask, hpause]
  · intro hpause hp
    simp [addTask, hpause, Nat.not_le.2 hp]
  · intro hpause hp hlim
    simp [addTask, hpause, hp, Nat.not_lt.2 hlim]
  · intro hpause hp hlim
    cases h : addTask s c t d p dd now with
    | error e => simp [addTask, hpause, hp, hlim] at h
    | ok r =>
      obtain ⟨s', ev, id⟩ := r
      obtain ⟨-, -, -, hid, -, hs⟩ := addTask_ok_elim h
      subst hid
      refine ⟨s', ev, rfl, ?_, ?_, ?_⟩
      · rw [hs]
        exact updMap_same _ _ _
      · rw [hs]
        show (updMap s.tasks s.taskIdCounter
          (newTask s c t d p dd now) s.taskIdCounter).owner = c
        rw [updMap_same]
        rfl
      · rw [hs]
        exact updMap_same _ _ _
  · intro s1 ev1 hpause hset hp hlim
    obtain ⟨-, hpaused1, -, hu, -, hm, -⟩ := setPaused_ok_elim hset
    cases h : addTask s1 c t d p dd now with
    | error e => simp [addTask, hpaused1, hp, hlim] at h
    | ok r => exact ⟨r, rfl⟩

/-- Witness for C5: blocked while paused at `sPausedEmpty`; succeeds from
the fresh store. -/
theorem claim_C5_witness :
    addTask sPausedEmpty 2 "a" "b" 0 0 0 = Except.error Err.Paused ∧
    ∃ s' ev, addTask (initialState 1) 2 "a" "b" 0 0 0 =
        Except.ok (s', ev, 0) ∧
      s'.tasks 0 = newTask (initialState 1) 2 "a" "b" 0 0 0 ∧
      (s'.tasks 0).owner = 2 ∧
      s'.userTasks 2 = (initialState 1).userTasks 2 ++ [0] :=
  ⟨(claim_C5_create_conditions sPausedEmpty 2 "a" "b" 0 0 0).1 rfl,
   (claim_C5_create_conditions (initialState 1) 2 "a" "b" 0 0 0).2.2.2.1 rfl
     (by decide) (by decide)⟩

/-- C6: every operation (with a real, nonzero sender) preserves the
ownership-index invariant `Inv` (in particular `ownerAlign`: every id in
an owner's index resolves to a record owned by that owner), and a
successful owner delete — or admin delete — removes the deleted id from
exactly the owning identity's index, leaving all other indices
untouched. -/
theorem claim_C6_ownership_index_invariant {s : State} (op : Op)
    (hInv : Inv s) (hc : Op.caller op ≠ 0) :
    Inv (applyOp s op) ∧
    (∀ c tid s' ev, deleteTask s c tid = Except.ok (s', ev) →
       tid ∉ s'.userTasks c ∧
       (∀ a, a ≠ c → s'.userTasks a = s.userTasks a) ∧
       (∀ id, id ∈ s'.userTasks c ↔ id ≠ tid ∧ id ∈ s.userTasks c)) ∧
    (∀ tid s' ev, adminDeleteTask s s.admin tid = Except.ok (s', ev) →
       tid ∉ s'.userTasks ((s.tasks tid).owner) ∧
       (∀ a, a ≠ (s.tasks tid).owner → s'.userTasks a = s.userTasks a) ∧
       (∀ id, id ∈ s'.userTasks ((s.tasks tid).owner) ↔
          id ≠ tid ∧ id ∈ s.userTasks ((s.tasks tid).owner))) := by
  refine ⟨Inv_applyOp hInv op hc, ?_, ?_⟩
  · intro c tid s' ev h
    obtain ⟨-, -, -, hs⟩ := deleteTask_ok_elim h
    subst hs
    refine ⟨?_, ?_, ?_⟩
    · show tid ∉ updMap s.userTasks c (swapPopRemove (s.userTasks c) tid) c
      rw [updMap_same]
      intro hmem
      exact ((mem_swapPopRemove_iff (hInv.nodup c)).1 hmem).1 rfl
    · intro a ha
      show updMap s.userTasks c (swapPopRemove (s.userTasks c) tid) a
        = s.userTasks a
      exact updMap_ne _ _ _ ha
    · intro id
      show id ∈ updMap s.userTasks c (swapPopRemove (s.userTasks c) tid) c
        ↔ _
      rw [updMap_same]
      exact mem_swapPopRemove_iff (hInv.nodup c)
  · intro tid s' ev h
    obtain ⟨-, -, hs⟩ := adminDeleteTask_ok_elim h
    subst hs
    refine ⟨?_, ?_, ?_⟩
    · show tid ∉ updMap s.userTasks ((s.tasks tid).owner)
        (swapPopRemove (s.userTasks ((s.tasks tid).owner)) tid)
        ((s.tasks tid).owner)
      rw [updMap_same]
      intro hmem
      exact ((mem_swapPopRemove_iff
        (hInv.nodup ((s.tasks tid).owner))).1 hmem).1 rfl
    · intro a ha
      show updMap s.userTasks ((s.tasks tid).owner)
        (swapPopRemove (s.userTasks ((s.tasks tid).owner)) tid) a
        = s.userTasks a
      exact updMap_ne _ _ _ ha
    · intro id
      show id ∈ updMap s.userTasks ((s.tasks tid).owner)
        (swapPopRemove (s.userTasks ((s.tasks tid).owner)) tid)
        ((s.tasks tid).owner) ↔ _
      rw [updMap_same]
      exact mem_swapPopRemove_iff (hInv.nodup ((s.tasks tid).owner))

/-- Witness for C6: the invariant survives the concrete delete of the
only task of `sOne`. -/
theorem claim_C6_witness : Inv (applyOp sOne (Op.deleteTask 2 0)) :=
  (claim_C6_ownership_index_invariant (Op.deleteTask 2 0) Inv_sOne
    (by decide)).1

/-- C7 counterexample: in the reachable paused state `sPausedOne`, a
non-owner's edit of task 0 fails with the PAUSE error, not the
owner-authorization error — the claim that every non-owner edit fails
with AuthorizationError is false in paused states, since `whenNotPaused`
runs before the ownership check. -/
theorem claim_C7_counterexample :
    (sPausedOne.tasks 0).owner = 2 ∧ (2 : Nat) ≠ 3 ∧
    editTask sPausedOne 3 0 "x" "y" 0 0 = Except.error Err.Paused ∧
    Err.Paused ≠ Err.NotOwnerEdit :=
  ⟨rfl, by decide, rfl, by decide⟩

/-- C7 (amended): a non-owner edit always fails — with the
owner-authorization error when the store is not paused and with the pause
error when it is — and, being a revert, it never produces a new state, so
the store (in particular every field of the targeted record) is
unchanged. -/
theorem claim_C7_nonowner_edit (s : State) (c : Address) (tid : Nat)
    (t d : String) (p dd : Nat) (hno : (s.tasks tid).owner ≠ c) :
    editTask s c tid t d p dd =
      Except.error (if s.paused then Err.Paused else Err.NotOwnerEdit) ∧
    editTaskSimple s c tid t d =
      Except.error (if s.paused then Err.Paused else Err.NotOwnerEdit) ∧
    (∀ r, editTask s c tid t d p dd ≠ Except.ok r) ∧
    (∀ r, editTaskSimple s c tid t d ≠ Except.ok r) := by
  cases hpause : s.paused with
  | true =>
    refine ⟨by simp [editTask, hpause], by simp [editTaskSimple, hpause],
      ?_, ?_⟩
    · intro r
      simp [editTask, hpause]
    · intro r
      simp [editTaskSimple, hpause]
  | false =>
    refine ⟨by simp [editTask, hpause, hno], by simp [editTaskSimple, hpause, hno],
      ?_, ?_⟩
    · intro r
      simp [editTask, hpause, hno]
    · intro r
      simp [editTaskSimple, hpause, hno]

/-- Witness for C7 (amended): non-owner 3 edits task 0 of `sOne` (not
paused) and gets the owner-authorization error. -/
theorem claim_C7_witness :
    editTask sOne 3 0 "x" "y" 0 0 =
      Except.error (if sOne.paused then Err.Paused else Err.NotOwnerEdit) ∧
    editTaskSimple sOne 3 0 "x" "y" =
      Except.error (if sOne.paused then Err.Paused else Err.NotOwnerEdit) ∧
    (∀ r, editTask sOne 3 0 "x" "y" 0 0 ≠ Except.ok r) ∧
    (∀ r, editTaskSimple sOne 3 0 "x" "y" ≠ Except.ok r) :=
  claim_C7_nonowner_edit sOne 3 0 "x" "y" 0 0 (by decide)

/-- C8: a successful owner delete zeroes the record (`getTask` then reads
the all-default record), removes the id from the owner's index, and
decreases the owner's `getTaskCount` by exactly one; the deletion event is
emitted. -/
theorem claim_C8_delete_effect {s : State} (hInv : Inv s) {c : Address}
    (hc : c ≠ 0) {tid : Nat} {s' : State} {ev : List Event}
    (h : deleteTask s c tid = Except.ok (s', ev)) :
    getTask s' tid = Task.empty ∧
    tid ∉ s'.userTasks c ∧
    getTaskCount s' c + 1 = getTaskCount s c ∧
    ev = [Event.TaskDeleted tid] := by
  obtain ⟨-, ho, hev, hs⟩ := deleteTask_ok_elim h
  subst hs
  have hmem : tid ∈ s.userTasks c := by
    have hl := hInv.live tid (by rw [ho]; exact hc)
    rw [ho] at hl
    exact hl
  refine ⟨?_, ?_, ?_, hev⟩
  · show updMap s.tasks tid Task.empty tid = Task.empty
    exact updMap_same _ _ _
  · show tid ∉ updMap s.userTasks c (swapPopRemove (s.userTasks c) tid) c
    rw [updMap_same]
    intro hmm
    exact ((mem_swapPopRemove_iff (hInv.nodup c)).1 hmm).1 rfl
  · show (updMap s.userTasks c (swapPopRemove (s.userTasks c) tid) c).length
      + 1 = (s.userTasks c).length
    rw [updMap_same, length_swapPopRemove_of_mem hmem]
    have hpos : 0 < (s.userTasks c).length := List.length_pos.2 (by
      intro hnil
      rw [hnil] at hmem
      simp at hmem)
    omega

/-- Witness for C8 at the concrete delete of task 0 from `sOne`. -/
theorem claim_C8_witness :
    getTask (applyOp sOne (Op.deleteTask 2 0)) 0 = Task.empty ∧
    (0 : Nat) ∉ (applyOp sOne (Op.deleteTask 2 0)).userTasks 2 ∧
    getTaskCount (applyOp sOne (Op.deleteTask 2 0)) 2 + 1 =
      getTaskCount sOne 2 ∧
    [Event.TaskDeleted 0] = ([Event.TaskDeleted 0] : List Event) :=
  claim_C8_delete_effect Inv_sOne (by decide) rfl

/-- C9 counterexample: in the paused empty store, a dangling id (5) makes
edit/setCompletion/delete fail with the PAUSE error, not the
owner-authorization error, so "always fails with the owner-authorization
error" is false in paused states. -/
theorem claim_C9_counterexample :
    sPausedEmpty.tasks 5 = Task.empty ∧
    editTask sPausedEmpty 3 5 "x" "y" 0 0 = Except.error Err.Paused ∧
    setTaskCompletion sPausedEmpty 3 5 true = Except.error Err.Paused ∧
    deleteTask sPausedEmpty 3 5 = Except.error Err.Paused ∧
    Err.Paused ≠ Err.NotOwnerEdit ∧ Err.Paused ≠ Err.NotOwnerModify ∧
    Err.Paused ≠ Err.NotOwnerDelete :=
  ⟨rfl, rfl, rfl, rfl, by decide, by decide, by decide⟩

/-- C9 (amended): when the store is not paused, calling edit,
setCompletion or delete on an id whose mapping slot is the zero record
(never assigned, or deleted) fails with the respective
owner-authorization error for every real (nonzero) caller, because the
missing record's owner reads as the zero address; when the store is
paused these calls fail with the pause error instead.  In both cases the
call reverts, mutating nothing. -/
theorem claim_C9_dangling_id (s : State) (c : Address) (tid : Nat)
    (t d : String) (p dd : Nat) (st : Bool)
    (hdangling : s.tasks tid = Task.empty) (hc : c ≠ 0) :
    (s.paused = false →
      editTask s c tid t d p dd = Except.error Err.NotOwnerEdit ∧
      editTaskSimple s c tid t d = Except.error Err.NotOwnerEdit ∧
      setTaskCompletion s c tid st = Except.error Err.NotOwnerModify ∧
      deleteTask s c tid = Except.error Err.NotOwnerDelete) ∧
    (s.paused = true →
      editTask s c tid t d p dd = Except.error Err.Paused ∧
      editTaskSimple s c tid t d = Except.error Err.Paused ∧
      setTaskCompletion s c tid st = Except.error Err.Paused ∧
      deleteTask s c tid = Except.error Err.Paused) := by
  have hno : (s.tasks tid).owner ≠ c := by
    rw [hdangling]
    exact fun hh => hc hh.symm
  constructor
  · intro hpause
    exact ⟨by simp [editTask, hpause, hno],
      by simp [editTaskSimple, hpause, hno],
      by simp [setTaskCompletion, hpause, hno],
      by simp [deleteTask, hpause, hno]⟩
  · intro hpause
    exact ⟨by simp [editTask, hpause], by simp [editTaskSimple, hpause],
      by simp [setTaskCompletion, hpause], by simp [deleteTask, hpause]⟩

/-- Witness for C9 (amended): dangling id 5 in the fresh (unpaused)
store, caller 3. -/
theorem claim_C9_witness :
    editTask (initialState 1) 3 5 "x" "y" 0 0 =
      Except.error Err.NotOwnerEdit ∧
    editTaskSimple (initialState 1) 3 5 "x" "y" =
      Except.error Err.NotOwnerEdit ∧
    setTaskCompletion (initialState 1) 3 5 true =
      Except.error Err.NotOwnerModify ∧
    deleteTask (initialState 1) 3 5 = Except.error Err.NotOwnerDelete :=
  (claim_C9_dangling_id (initialState 1) 3 5 "x" "y" 0 0 true rfl
    (by decide)).1 rfl

/-- C10: `adminDeleteTask`'s only precondition is being the
administrator — it is not gated by the pause flag (the success conjunct
holds for every state, paused or not) and succeeds for EVERY id; a
non-admin caller gets the admin-authorization error; and on an id with no
stored record (in an invariant-satisfying state) the call returns the
store completely unchanged while still emitting the deletion event. -/
theorem claim_C10_adminDelete (s : State) (c : Address) (tid : Nat) :
    (c = s.admin → ∃ s' ev, adminDeleteTask s c tid = Except.ok (s', ev)) ∧
    (c ≠ s.admin → adminDeleteTask s c tid = Except.error Err.NotAdmin) ∧
    (Inv s → s.tasks tid = Task.empty →
      adminDeleteTask s s.admin tid =
        Except.ok (s, [Event.TaskDeleted tid])) := by
  refine ⟨?_, ?_, ?_⟩
  · intro hca
    cases h : adminDeleteTask s c tid with
    | error e => simp [adminDeleteTask, hca] at h
    | ok r =>
      obtain ⟨s', ev⟩ := r
      exact ⟨s', ev, rfl⟩
  · intro hca
    simp [adminDeleteTask, hca]
  · intro hInv hdang
    have ho : (s.tasks tid).owner = 0 := by rw [hdang]; rfl
    have ht : updMap s.tasks tid Task.empty = s.tasks := by
      funext x
      by_cases hx : x = tid
      · rw [hx, updMap_same, hdang]
      · rw [updMap_ne _ _ _ hx]
    have hu : updMap s.userTasks ((s.tasks tid).owner)
        (swapPopRemove (s.userTasks ((s.tasks tid).owner)) tid)
        = s.userTasks := by
      rw [ho]
      funext x
      by_cases hx : x = 0
      · rw [hx, updMap_same, hInv.zeroEmpty]
        rfl
      · rw [updMap_ne _ _ _ hx]
    unfold adminDeleteTask
    rw [if_pos rfl, ht, hu]

/-- Witness for C10: the admin deletes the nonexistent id 5 from the
PAUSED state `sPausedOne` — the call succeeds despite the pause, changes
nothing, and still emits the deletion event. -/
theorem claim_C10_witness :
    sPausedOne.paused = true ∧
    adminDeleteTask sPausedOne 1 5 =
      Except.ok (sPausedOne, [Event.TaskDeleted 5]) :=
  ⟨rfl, (claim_C10_adminDelete sPausedOne 1 5).2.2 Inv_sPausedOne rfl⟩

end TaskManager
